import Mathlib

/-!
Verification of `src/wavdump.c` against its natural-language specification.

Embedding conventions:
* C `unsigned int` arithmetic is modelled over `ℕ` with an explicit `% 2 ^ 32`
  wherever the C computation can wrap; C `long` values are modelled as `ℤ`.
* The floating-point arithmetic of the synthesis loop (line 147) is idealised
  over `ℚ`.  The library function `sinf` is not part of the repository, so it
  is modelled as an abstract oracle `s : ℚ → ℚ`; the value `s x` stands for
  `sinf(2·π·x)`, i.e. the oracle takes the fraction of a full cycle.  The C
  expression `sinf((2 * M_PI * f * j) / waverate)` therefore becomes
  `s ((f : ℚ) * j / waverate)`.  Claims about sine values are stated for every
  bounded oracle (`∀ x, |s x| ≤ 1`), which is the property every `sinf`
  implementation provides.
* The implicit C conversion from `float` to `short` truncates toward zero; it
  is modelled by `trunc : ℚ → ℤ`.
* The on-disk image is modelled as the list of bytes produced by writing the
  three header structs and the sample buffer on a little-endian host (the
  reference relies on host endianness; we model the little-endian host it
  targets).
-/

namespace Wavdump

/-- C constant `MIN_FREQ` (src/wavdump.c, line 5). -/
def MIN_FREQ : ℕ := 20

/-- C constant `MAX_FREQ` (line 6). -/
def MAX_FREQ : ℕ := 22050

/-- Number of values of a C `unsigned int`: `2 ^ 32`. -/
def U32 : ℕ := 2 ^ 32

/-- Conversion of a C `long` value to `unsigned int` (reduction modulo `2^32`),
as performed by the assignments `filetime = atol(argv[2])` (line 64) and
`freqbuff[i] = atol(argv[3 + i])` (line 73). -/
def toUInt32 (z : ℤ) : ℕ := (z % (U32 : ℤ)).toNat

/-- Value of a list of decimal digit characters. -/
def digitsToNat (cs : List Char) : ℕ := cs.foldl (fun a c => 10 * a + (c.toNat - 48)) 0

/-- Model of libc `atol` restricted to the argument shapes relevant here: an
optional leading minus sign followed by decimal digits.  (Saturation of
out-of-`long`-range inputs is not modelled; every input considered below is
well inside the range of a 64-bit `long`.) -/
def atolZ : List Char → ℤ
  | '-' :: cs => -(digitsToNat cs : ℤ)
  | cs => (digitsToNat cs : ℤ)

/-- Duration validation (lines 87-92): the program rejects the parsed duration
exactly when `filetime == 0`. -/
def durationRejected (ft : ℕ) : Bool := ft == 0

/-- The per-frequency rejection test of line 95:
`freqbuff[i] < MIN_FREQ || freqbuff[i] > MAX_FREQ`. -/
def freqRejected (f : ℕ) : Bool := decide (f < MIN_FREQ) || decide (MAX_FREQ < f)

/-- The frequency-validation loop (lines 94-101), started at index `i`:
returns the index of the first rejected frequency (at which the program prints
its message and exits), or `none` when every frequency is accepted. -/
def validateFreqsFrom : List ℕ → ℕ → Option ℕ
  | [], _ => none
  | f :: fs, i => if freqRejected f then some i else validateFreqsFrom fs (i + 1)

/-- The parsed frequency buffer (lines 69-74): `argv` is modelled as a list of
character lists; `freqbuff[i] = atol(argv[3 + i])` converted to `unsigned int`,
for `i < argc - 3`. -/
def parseFreqs (argv : List (List Char)) : List ℕ :=
  (List.range (argv.length - 3)).map (fun i => toUInt32 (atolZ (argv.getD (3 + i) [])))

/-- The argument displayed by the rejection message of line 98: on rejection at
index `i` the program prints `argv[5 + i]`.  The outer `Option` is `none` when
no frequency is rejected; the inner `Option` is `none` when `5 + i` falls
outside the argument vector (in C, a read past `argv`). -/
def rejectionDisplay (argv : List (List Char)) : Option (Option (List Char)) :=
  (validateFreqsFrom (parseFreqs argv) 0).map (fun i => argv[5 + i]?)

/-- C variable `wavechnl` (line 114). -/
def wavechnl : ℕ := 1

/-- C variable `wavebits` (line 115). -/
def wavebits : ℕ := 16

/-- C variable `waverate = MAX_FREQ * 2` (line 116), i.e. 44100. -/
def waverate : ℕ := MAX_FREQ * 2

/-- Truncation toward zero: the C conversion from a floating-point value to an
integer type, as happens at each `+=` of line 147 when the `float` sum is
stored back into the `short` buffer entry. -/
def trunc (q : ℚ) : ℤ := if 0 ≤ q then ⌊q⌋ else ⌈q⌉

/-- The inner harmonic loop of lines 146-148, folded over the frequency list
`l` with fixed amplitude factor `amp` (in the program `amp = 32765 / freqsize`,
a C unsigned integer division) and fixed sample-of-second index `j`.  One step
performs `wavebuff[..] += sinf((2*M_PI*f*j)/waverate) * amp`, i.e. the `short`
accumulator is converted to `float`, the contribution is added, and the result
is truncated back into the `short`. -/
def harmonicFold (s : ℚ → ℚ) (amp : ℕ) (j : ℕ) (l : List ℕ) (acc : ℤ) : ℤ :=
  l.foldl (fun (a : ℤ) (f : ℕ) => trunc ((a : ℚ) + s ((f : ℚ) * j / waverate) * (amp : ℚ))) acc

/-- The sample value stored at `wavebuff[i * waverate + j]` (lines 144-148):
start from `0` and run the harmonic loop over the whole frequency list. -/
def sampleAt (s : ℚ → ℚ) (freqs : List ℕ) (j : ℕ) : ℤ :=
  harmonicFold s (32765 / freqs.length) j freqs 0

/-- Same fold with the time of the sample given directly as a rational `t`
(used to state the spec's `t = (n mod sampleRate) / sampleRate` formula). -/
def harmonicFoldT (s : ℚ → ℚ) (amp : ℕ) (t : ℚ) (l : List ℕ) (acc : ℤ) : ℤ :=
  l.foldl (fun (a : ℤ) (f : ℕ) => trunc ((a : ℚ) + s ((f : ℚ) * t) * (amp : ℚ))) acc

/-- Sample value as a function of the time `t` within the second. -/
def sampleAtTime (s : ℚ → ℚ) (freqs : List ℕ) (t : ℚ) : ℤ :=
  harmonicFoldT s (32765 / freqs.length) t freqs 0

/-- The accumulator of line 147 after the first `m` harmonics have been added,
for the sample at index `j` of its second (the intermediate value of the
`short` buffer entry mid-loop). -/
def accAfter (s : ℚ → ℚ) (freqs : List ℕ) (j m : ℕ) : ℤ :=
  harmonicFold s (32765 / freqs.length) j (freqs.take m) 0

/-- One second of samples: the inner `j` loop of line 143. -/
def secondSamples (s : ℚ → ℚ) (freqs : List ℕ) : List ℤ :=
  (List.range waverate).map (fun j => sampleAt s freqs j)

/-- The whole sample buffer (lines 142-149): the outer loop writes one second
of samples per iteration at offsets `i * waverate + j`. -/
def waveBuffer (s : ℚ → ℚ) (freqs : List ℕ) : ℕ → List ℤ
  | 0 => []
  | t + 1 => waveBuffer s freqs t ++ secondSamples s freqs

/-- Size of `struct wave_riffhead`: 4 + 4 + 4 = 12 bytes (lines 14-19; the
struct has no padding). -/
def sizeofRiffhead : ℕ := 12

/-- Size of `struct wave_frmthead`: 4+4+2+2+4+4+2+2 = 24 bytes (lines 21-31). -/
def sizeofFrmthead : ℕ := 24

/-- Size of `struct wave_datahead`: 4 + 4 = 8 bytes (lines 33-37). -/
def sizeofDatahead : ℕ := 8

/-- C variable `wavesize` (line 123):
`wavechnl * (wavebits / 8) * waverate * filetime` computed in 32-bit
`unsigned` arithmetic, hence the explicit wrap modulo `2^32`. -/
def wavesize (ft : ℕ) : ℕ := wavechnl * (wavebits / 8) * waverate * ft % U32

/-- The `chunk0size` field of the RIFF header (lines 158-164):
`sizeof(riffhead) + sizeof(frmthead) + sizeof(datahead) + wavesize - 8`,
stored in a 32-bit field. -/
def chunk0size (ft : ℕ) : ℕ :=
  (sizeofRiffhead + sizeofFrmthead + sizeofDatahead + wavesize ft - 8) % U32

/-- Little-endian byte serialisation of `v` on `w` bytes. -/
def bytesLE : ℕ → ℕ → List ℕ
  | 0, _ => []
  | w + 1, v => v % 256 :: bytesLE w (v / 256)

/-- Value of a little-endian byte list. -/
def readLE (l : List ℕ) : ℕ := l.foldr (fun b acc => b + 256 * acc) 0

/-- A `short` sample as two little-endian bytes (two's complement). -/
def int16Bytes (z : ℤ) : List ℕ := bytesLE 2 (z % (65536 : ℤ)).toNat

/-- Raw bytes of the sample buffer, in order. -/
def samplesBytes : List ℤ → List ℕ
  | [] => []
  | z :: zs => int16Bytes z ++ samplesBytes zs

/-- Bytes of `struct wave_riffhead riffhead` (lines 158-164):
`"RIFF"`, `chunk0size`, `"WAVE"`. -/
def riffheadBytes (ft : ℕ) : List ℕ :=
  [82, 73, 70, 70] ++ bytesLE 4 (chunk0size ft) ++ [87, 65, 86, 69]

/-- Bytes of `struct wave_frmthead frmthead` (lines 167-176): `"fmt "`,
`sizeof(frmthead) - 8`, PCM format 1, `wavechnl`, `waverate`,
`wavechnl * (wavebits / 8) * waverate`, `wavechnl * (wavebits / 8)`,
`wavebits`. -/
def frmtheadBytes : List ℕ :=
  [102, 109, 116, 32] ++ bytesLE 4 (sizeofFrmthead - 8) ++ bytesLE 2 1 ++
    bytesLE 2 wavechnl ++ bytesLE 4 waverate ++
    bytesLE 4 (wavechnl * (wavebits / 8) * waverate) ++
    bytesLE 2 (wavechnl * (wavebits / 8)) ++ bytesLE 2 wavebits

/-- Bytes of `struct wave_datahead datahead` (lines 179-182): `"data"`,
`wavesize`. -/
def dataheadBytes (ft : ℕ) : List ℕ := [100, 97, 116, 97] ++ bytesLE 4 (wavesize ft)

/-- The bytes written to the output file (lines 203-207): the three headers
followed by `fwrite(wavebuff, 1, wavesize, ofile)`, which writes `wavesize`
bytes of the sample buffer. -/
def fileBytes (s : ℚ → ℚ) (freqs : List ℕ) (ft : ℕ) : List ℕ :=
  riffheadBytes ft ++ frmtheadBytes ++ dataheadBytes ft ++
    (samplesBytes (waveBuffer s freqs ft)).take (wavesize ft)

/-- Decode a `len`-byte little-endian field at byte offset `off` of a file. -/
def readField (file : List ℕ) (off len : ℕ) : ℕ := readLE ((file.drop off).take len)

/-- The outcomes the program can report during the write phase
(lines 191-216): either the `fopen` failure message (lines 193-201) or normal
completion with `return 0`. -/
inductive WriteOutcome where
  | cannotCreate : WriteOutcome
  | completed : WriteOutcome

/-- Behaviour of the output sink: whether `fopen` succeeds, and whether the
`n`-th of the four `fwrite` calls succeeds. -/
structure Sink where
  openOk : Bool
  writeOk : ℕ → Bool

/-- The write phase of `main` (lines 191-216): only the result of `fopen` is
inspected (line 193); the results of the four `fwrite` calls (lines 203-207)
are never read, so the reported outcome does not depend on them. -/
def writePhase (sk : Sink) : WriteOutcome :=
  if sk.openOk then WriteOutcome.completed else WriteOutcome.cannotCreate

/-- Modelled from the spec: the per-sample formula of claim C1 for the request
`frequencies = [440, 880]`, `duration = 1`:
`truncate(sin(2π·440·t)·(32765/2) + sin(2π·880·t)·(32765/2))` with
`t = n / 44100`, the division `32765/2` exact and the truncation applied to
the whole sum exactly once. -/
def specSampleC1 (s : ℚ → ℚ) (n : ℕ) : ℤ :=
  trunc (s ((440 : ℚ) * n / 44100) * ((32765 : ℚ) / 2) +
    s ((880 : ℚ) * n / 44100) * ((32765 : ℚ) / 2))

/-! ### Helper lemmas -/

lemma secondSamples_length (s : ℚ → ℚ) (freqs : List ℕ) :
    (secondSamples s freqs).length = waverate := by
  simp [secondSamples]

lemma waveBuffer_length (s : ℚ → ℚ) (freqs : List ℕ) :
    ∀ ft, (waveBuffer s freqs ft).length = ft * waverate := by
  intro ft
  induction ft with
  | zero => simp [waveBuffer]
  | succ t ih => simp [waveBuffer, ih, secondSamples_length, Nat.succ_mul]

lemma waveBuffer_getElem? (s : ℚ → ℚ) (freqs : List ℕ) :
    ∀ ft n, n < ft * waverate →
      (waveBuffer s freqs ft)[n]? = some (sampleAt s freqs (n % waverate)) := by
  intro ft
  induction ft with
  | zero => intro n h; omega
  | succ t ih =>
    intro n h
    have hw : waverate = 44100 := by norm_num [waverate, MAX_FREQ]
    rw [waveBuffer]
    by_cases hn : n < t * waverate
    · rw [List.getElem?_append_left (by rw [waveBuffer_length]; exact hn)]
      exact ih n hn
    · push_neg at hn
      rw [List.getElem?_append_right (by rw [waveBuffer_length]; exact hn)]
      rw [waveBuffer_length]
      have hj : n - t * waverate < waverate := by
        rw [Nat.succ_mul] at h
        omega
      rw [secondSamples, List.getElem?_map, List.getElem?_range hj]
      have hmod : n % waverate = n - t * waverate := by
        rw [hw] at hn hj ⊢
        omega
      rw [hmod]
      rfl

lemma harmonicFold_eq_T (s : ℚ → ℚ) (amp j : ℕ) :
    ∀ (l : List ℕ) (acc : ℤ),
      harmonicFold s amp j l acc = harmonicFoldT s amp ((j : ℚ) / waverate) l acc := by
  intro l
  induction l with
  | nil => intro acc; rfl
  | cons f fs ih =>
    intro acc
    simp only [harmonicFold, harmonicFoldT, List.foldl_cons] at ih ⊢
    rw [mul_div_assoc]
    exact ih _

lemma sampleAt_eq_sampleAtTime (s : ℚ → ℚ) (freqs : List ℕ) (j : ℕ) :
    sampleAt s freqs j = sampleAtTime s freqs ((j : ℚ) / waverate) := by
  rw [sampleAt, sampleAtTime, harmonicFold_eq_T]

lemma trunc_eq_of (q : ℚ) (z : ℤ) (h0 : 0 ≤ q) (h1 : (z : ℚ) ≤ q) (h2 : q < z + 1) :
    trunc q = z := by
  rw [trunc, if_pos h0, Int.floor_eq_iff]
  exact ⟨h1, h2⟩

/-! ### Claims C7, C8, C9 -/

/-- Claim C7, counterexample: the claim "if a write to the output sink fails
partway through serialization, the writer reports the failure to its caller
(nothing is silently swallowed)" is false: a sink on which `fopen` succeeds
but every `fwrite` fails still makes the program complete normally. -/
theorem c7_counterexample :
    ¬ (∀ sk : Sink, sk.openOk = true → (∃ n, n < 4 ∧ sk.writeOk n = false) →
        writePhase sk ≠ WriteOutcome.completed) := by
  intro h
  exact h ⟨true, fun _ => false⟩ rfl ⟨0, by omega, rfl⟩ rfl

/-- Claim C7, amended: the write phase reports a failure exactly when `fopen`
fails; the results of the `fwrite` calls are ignored, so a write failing
partway still ends in normal completion. -/
theorem c7_amended (sk : Sink) :
    writePhase sk = WriteOutcome.completed ↔ sk.openOk = true := by
  cases h : sk.openOk <;> simp [writePhase, h]

/-- Claim C8: frequency validation accepts exactly the closed range
`[MIN_FREQ, MAX_FREQ] = [20, 22050]`: 20 and 22050 are accepted, 19 and 22051
are rejected, and in general a frequency passes the test of line 95 iff it
lies in the closed range. -/
theorem c8_freq_bounds :
    validateFreqsFrom [20] 0 = none ∧ validateFreqsFrom [22050] 0 = none ∧
    validateFreqsFrom [19] 0 = some 0 ∧ validateFreqsFrom [22051] 0 = some 0 ∧
    ∀ f : ℕ, freqRejected f = false ↔ (MIN_FREQ ≤ f ∧ f ≤ MAX_FREQ) := by
  refine ⟨by decide, by decide, by decide, by decide, ?_⟩
  intro f
  simp only [freqRejected, MIN_FREQ, MAX_FREQ, Bool.or_eq_false_iff,
    decide_eq_false_iff_not, not_lt]

/-- Claim C9, counterexample: the claim "every duration argument whose textual
form parses to a negative number is not rejected (the converted unsigned value
is nonzero)" is false: the argument `"-4294967296"` parses to the negative
long `-2^32`, whose conversion to `unsigned int` is `0`, and it is rejected by
the `filetime == 0` check. -/
theorem c9_counterexample :
    ¬ (∀ a : List Char, atolZ a < 0 →
        durationRejected (toUInt32 (atolZ a)) = false) := by
  intro h
  have h1 := h ['-', '4', '2', '9', '4', '9', '6', '7', '2', '9', '6'] (by decide)
  exact absurd h1 (by decide)

/-- Claim C9, amended: a duration argument parsing to a negative value `z`
that is not a multiple of `2^32` (for example `-1`) is not rejected by the
duration validation: the conversion to `unsigned int` yields a nonzero value,
so it passes the `filetime == 0` check; for `-2^32 ≤ z` the wrapped value is
the huge `2^32 + z`. -/
theorem c9_amended (z : ℤ) (hneg : z < 0) (hnz : z % (U32 : ℤ) ≠ 0) :
    durationRejected (toUInt32 z) = false ∧ toUInt32 z ≠ 0 ∧
    (-(U32 : ℤ) ≤ z → (toUInt32 z : ℤ) = (U32 : ℤ) + z) := by
  have hU : (U32 : ℤ) = 4294967296 := by norm_num [U32]
  rw [hU] at hnz ⊢
  have h0 : 0 ≤ z % (4294967296 : ℤ) := Int.emod_nonneg z (by norm_num)
  have h2 : toUInt32 z = (z % (4294967296 : ℤ)).toNat := by
    simp [toUInt32, U32]
  have h3 : (toUInt32 z : ℤ) = z % 4294967296 := by
    rw [h2]
    exact Int.toNat_of_nonneg h0
  refine ⟨?_, ?_, ?_⟩
  · have : toUInt32 z ≠ 0 := by
      intro hc
      rw [hc] at h3
      exact hnz (by omega)
    simp [durationRejected, this]
  · intro hc
    rw [hc] at h3
    exact hnz (by omega)
  · intro hge
    have hlt : z % (4294967296 : ℤ) = z + 4294967296 := by omega
    omega

/-- Claim C9, witness for the amended theorem at the example input `-1`. -/
theorem c9_amended_witness :
    (-1 : ℤ) < 0 ∧ (-1 : ℤ) % (U32 : ℤ) ≠ 0 ∧
    (durationRejected (toUInt32 (-1)) = false ∧ toUInt32 (-1) ≠ 0 ∧
      (-(U32 : ℤ) ≤ -1 → (toUInt32 (-1) : ℤ) = (U32 : ℤ) + -1)) :=
  ⟨by decide, by decide, c9_amended (-1) (by decide) (by decide)⟩

/-! ### Claims C4 and C6 -/

/-- Claim C4: for every valid request (positive duration, non-empty in-range
frequency list) the synthesized sample buffer contains exactly
`durationSeconds × sampleRate` samples, with `sampleRate = waverate = 44100`
and `wavechnl = 1`. -/
theorem c4_buffer_length (s : ℚ → ℚ) (freqs : List ℕ) (ft : ℕ) (hft : 0 < ft)
    (hne : freqs ≠ []) (hr : ∀ f ∈ freqs, MIN_FREQ ≤ f ∧ f ≤ MAX_FREQ) :
    (waveBuffer s freqs ft).length = ft * 44100 ∧ waverate = 44100 ∧ wavechnl = 1 := by
  have hw : waverate = 44100 := by norm_num [waverate, MAX_FREQ]
  exact ⟨by rw [waveBuffer_length, hw], hw, rfl⟩

/-- Claim C4, witness at the request duration 1, frequencies `[440]`. -/
theorem c4_witness :
    0 < 1 ∧ ([440] : List ℕ) ≠ [] ∧
    (∀ f ∈ ([440] : List ℕ), MIN_FREQ ≤ f ∧ f ≤ MAX_FREQ) ∧
    ((waveBuffer (fun _ => (0 : ℚ)) [440] 1).length = 1 * 44100 ∧
      waverate = 44100 ∧ wavechnl = 1) :=
  ⟨Nat.one_pos, by decide, by decide,
    c4_buffer_length (fun _ => 0) [440] 1 Nat.one_pos (by decide) (by decide)⟩

/-- Claim C6: for every request and every in-range flat sample index `n`, the
stored sample is the one computed at time `t = (n mod waverate) / waverate`
(the waveform phase restarts at each second boundary); consequently samples
one whole second apart are identical. -/
theorem c6_phase_reset (s : ℚ → ℚ) (freqs : List ℕ) (ft n : ℕ)
    (h : n < ft * waverate) :
    (waveBuffer s freqs ft)[n]? =
      some (sampleAtTime s freqs (((n % waverate : ℕ) : ℚ) / (waverate : ℚ))) ∧
    (n + waverate < ft * waverate →
      (waveBuffer s freqs ft)[n + waverate]? = (waveBuffer s freqs ft)[n]?) := by
  constructor
  · rw [waveBuffer_getElem? s freqs ft n h, sampleAt_eq_sampleAtTime]
  · intro h2
    rw [waveBuffer_getElem? s freqs ft n h,
      waveBuffer_getElem? s freqs ft (n + waverate) h2, Nat.add_mod_right]

/-- Claim C6, witness at duration 2, frequencies `[440]`, index 0. -/
theorem c6_witness :
    0 < 2 * waverate ∧
    ((waveBuffer (fun _ => (0 : ℚ)) [440] 2)[0]? =
        some (sampleAtTime (fun _ => (0 : ℚ)) [440]
          (((0 % waverate : ℕ) : ℚ) / (waverate : ℚ))) ∧
      (0 + waverate < 2 * waverate →
        (waveBuffer (fun _ => (0 : ℚ)) [440] 2)[0 + waverate]? =
          (waveBuffer (fun _ => (0 : ℚ)) [440] 2)[0]?)) :=
  ⟨by decide, c6_phase_reset (fun _ => 0) [440] 2 0 (by decide)⟩

/-! ### Claim C1 -/

/-- Claim C1, counterexample: the claim "for frequencies `[440, 880]` and
duration 1, every sample at index `n` equals
`truncate(sin(2π·440·t)·(32765/2) + sin(2π·880·t)·(32765/2))`, the
contributions summed as reals and truncated exactly once", quantified over
every bounded sine oracle, is false: for the bounded oracle constantly `3/4`
the program stores 24572 at index 1 while the spec formula gives 24573 (the
code multiplies by the integer quotient `32765 / 2 = 16382` and truncates
after each of the two `+=` steps, not once). -/
theorem c1_counterexample :
    ¬ (∀ s : ℚ → ℚ, (∀ x, |s x| ≤ 1) → ∀ n, n < 44100 →
        (waveBuffer s [440, 880] 1)[n]? = some (specSampleC1 s n)) := by
  intro h
  have hw : waverate = 44100 := by norm_num [waverate, MAX_FREQ]
  have hb : ∀ x : ℚ, |(3 : ℚ) / 4| ≤ 1 := by
    intro x
    rw [abs_of_nonneg (by norm_num : (0 : ℚ) ≤ 3 / 4)]
    norm_num
  have h1 := h (fun _ => 3 / 4) hb 1 (by norm_num)
  have h2 := waveBuffer_getElem? (fun _ => (3 : ℚ) / 4) [440, 880] 1 1 (by rw [hw]; norm_num)
  rw [h2] at h1
  have h3 : (1 : ℕ) % waverate = 1 := by rw [hw]
  rw [h3] at h1
  have h4 : sampleAt (fun _ => (3 : ℚ) / 4) [440, 880] 1 = 24572 := by
    simp only [sampleAt, harmonicFold, List.foldl_cons, List.foldl_nil]
    have e1 : trunc (((0 : ℤ) : ℚ) +
        3 / 4 * ((32765 / ([440, 880] : List ℕ).length : ℕ) : ℚ)) = 12286 :=
      trunc_eq_of _ _ (by norm_num) (by norm_num) (by norm_num)
    rw [e1]
    exact trunc_eq_of _ _ (by norm_num) (by norm_num) (by norm_num)
  have h5 : specSampleC1 (fun _ => (3 : ℚ) / 4) 1 = 24573 := by
    simp only [specSampleC1]
    exact trunc_eq_of _ _ (by norm_num) (by norm_num) (by norm_num)
  rw [h4, h5] at h1
  exact absurd (Option.some.inj h1) (by decide)

/-- Claim C1, amended: for frequencies `[440, 880]` and duration 1, the sample
at index `n` is computed with the integer amplitude quotient
`32765 / 2 = 16382` and a truncation toward zero after each of the two
harmonic additions (the running `short` value is truncated at every `+=`),
i.e. it equals `trunc(trunc(s(440·t)·16382) + s(880·t)·16382)` with
`t = n/44100` and `s` the cycle-fraction sine oracle. -/
theorem c1_amended (s : ℚ → ℚ) (n : ℕ) (h : n < 44100) :
    (waveBuffer s [440, 880] 1)[n]? =
      some (trunc ((trunc (s ((440 : ℚ) * n / 44100) * 16382) : ℚ) +
        s ((880 : ℚ) * n / 44100) * 16382)) := by
  have hw : waverate = 44100 := by norm_num [waverate, MAX_FREQ]
  have h2 := waveBuffer_getElem? s [440, 880] 1 n (by rw [hw]; omega)
  rw [h2]
  have h3 : n % waverate = n := by rw [hw]; omega
  rw [h3]
  simp only [sampleAt, harmonicFold, List.foldl_cons, List.foldl_nil]
  norm_num [hw]

/-- Claim C1, witness for the amended theorem at index 0 and the zero
oracle. -/
theorem c1_amended_witness :
    (0 : ℕ) < 44100 ∧
    (waveBuffer (fun _ => (0 : ℚ)) [440, 880] 1)[0]? =
      some (trunc ((trunc ((0 : ℚ) * 16382) : ℚ) + (0 : ℚ) * 16382)) :=
  ⟨by norm_num, c1_amended (fun _ => 0) 0 (by norm_num)⟩

/-! ### Byte-level lemmas for the on-disk image -/

lemma bytesLE_length : ∀ w v : ℕ, (bytesLE w v).length = w := by
  intro w
  induction w with
  | zero => intro v; rfl
  | succ w ih => intro v; simp [bytesLE, ih]

lemma readLE_bytesLE : ∀ w v : ℕ, readLE (bytesLE w v) = v % 256 ^ w := by
  intro w
  induction w with
  | zero => intro v; simp [bytesLE, readLE, Nat.mod_one]
  | succ w ih =>
    intro v
    have h : readLE (bytesLE (w + 1) v) = v % 256 + 256 * readLE (bytesLE w (v / 256)) := rfl
    rw [h, ih, pow_succ', Nat.mod_mul]

lemma riffheadBytes_length (ft : ℕ) : (riffheadBytes ft).length = 12 := by
  simp [riffheadBytes, bytesLE_length]

lemma frmtheadBytes_length : frmtheadBytes.length = 24 := by
  simp [frmtheadBytes, bytesLE_length]

lemma dataheadBytes_length (ft : ℕ) : (dataheadBytes ft).length = 8 := by
  simp [dataheadBytes, bytesLE_length]

lemma samplesBytes_length : ∀ l : List ℤ, (samplesBytes l).length = 2 * l.length := by
  intro l
  induction l with
  | nil => rfl
  | cons z zs ih =>
    simp only [samplesBytes, int16Bytes, List.length_append, List.length_cons, ih,
      bytesLE_length]
    omega

lemma U32_pos : 0 < U32 := by norm_num [U32]

lemma wavesize_lt (ft : ℕ) : wavesize ft < U32 := Nat.mod_lt _ U32_pos

lemma chunk0size_lt (ft : ℕ) : chunk0size ft < U32 := Nat.mod_lt _ U32_pos

lemma wavesize_eq (ft : ℕ) : wavesize ft = 2 * (ft * waverate) % U32 := by
  rw [wavesize]
  congr 1
  simp only [wavechnl, wavebits]
  norm_num
  ring

lemma wavesize_le (ft : ℕ) : wavesize ft ≤ 2 * (ft * waverate) := by
  rw [wavesize_eq]
  exact Nat.mod_le _ _

lemma pow256_4 : (256 : ℕ) ^ 4 = U32 := by norm_num [U32]

lemma fileBytes_length (s : ℚ → ℚ) (freqs : List ℕ) (ft : ℕ) :
    (fileBytes s freqs ft).length = 44 + wavesize ft := by
  have h := wavesize_le ft
  have hl : (samplesBytes (waveBuffer s freqs ft)).length = 2 * (ft * waverate) := by
    rw [samplesBytes_length, waveBuffer_length]
  simp only [fileBytes, List.length_append, riffheadBytes_length, frmtheadBytes_length,
    dataheadBytes_length, List.length_take, hl]
  omega

/-! ### Claims C2 and C3 -/

/-- Claim C2: for every valid request, decoding the format-chunk fields and
the data-chunk header of the written file yields audio format 1 (PCM, byte
offset 20), channel count 1 (offset 22), sample rate 44100 (offset 24), bits
per sample 16 (offset 34), format sub-chunk size 16 (offset 16), byte rate
`sampleRate × channelCount × (bitsPerSample/8)` (offset 28), block align
`channelCount × (bitsPerSample/8)` (offset 32), and a data chunk size
(offset 40) equal to `2 × SampleBuffer.length` reduced modulo `2^32` (the
field is 32 bits wide; below the wrap threshold the equality is exact). -/
theorem c2_format_chunk_roundtrip (s : ℚ → ℚ) (freqs : List ℕ) (ft : ℕ) (hft : 0 < ft)
    (hne : freqs ≠ []) (hr : ∀ f ∈ freqs, MIN_FREQ ≤ f ∧ f ≤ MAX_FREQ) :
    readField (fileBytes s freqs ft) 20 2 = 1 ∧
    readField (fileBytes s freqs ft) 22 2 = 1 ∧
    readField (fileBytes s freqs ft) 24 4 = 44100 ∧
    readField (fileBytes s freqs ft) 34 2 = 16 ∧
    readField (fileBytes s freqs ft) 16 4 = 16 ∧
    readField (fileBytes s freqs ft) 28 4 = 44100 * 1 * (16 / 8) ∧
    readField (fileBytes s freqs ft) 32 2 = 1 * (16 / 8) ∧
    readField (fileBytes s freqs ft) 40 4 = 2 * (waveBuffer s freqs ft).length % U32 ∧
    (2 * (waveBuffer s freqs ft).length < U32 →
      readField (fileBytes s freqs ft) 40 4 = 2 * (waveBuffer s freqs ft).length) := by
  have h40 : readField (fileBytes s freqs ft) 40 4 =
      2 * (waveBuffer s freqs ft).length % U32 := by
    have h1 : readField (fileBytes s freqs ft) 40 4 = readLE (bytesLE 4 (wavesize ft)) := rfl
    rw [h1, readLE_bytesLE, pow256_4, Nat.mod_eq_of_lt (wavesize_lt ft), wavesize_eq,
      waveBuffer_length]
  have h24 : readField (fileBytes s freqs ft) 24 4 = 44100 := by
    have h1 : readField (fileBytes s freqs ft) 24 4 = readLE (bytesLE 4 waverate) := rfl
    rw [h1, readLE_bytesLE]
    norm_num [waverate, MAX_FREQ]
  have h28 : readField (fileBytes s freqs ft) 28 4 = 44100 * 1 * (16 / 8) := by
    have h1 : readField (fileBytes s freqs ft) 28 4 =
        readLE (bytesLE 4 (wavechnl * (wavebits / 8) * waverate)) := rfl
    rw [h1, readLE_bytesLE]
    norm_num [wavechnl, wavebits, waverate, MAX_FREQ]
  refine ⟨rfl, rfl, h24, rfl, rfl, h28, rfl, h40, ?_⟩
  intro hlt
  rw [h40, Nat.mod_eq_of_lt hlt]

/-- Claim C2, witness at the zero oracle, frequencies `[440]`, duration 1. -/
theorem c2_witness :
    0 < 1 ∧ ([440] : List ℕ) ≠ [] ∧
    (∀ f ∈ ([440] : List ℕ), MIN_FREQ ≤ f ∧ f ≤ MAX_FREQ) ∧
    (readField (fileBytes (fun _ => (0 : ℚ)) [440] 1) 20 2 = 1 ∧
      readField (fileBytes (fun _ => (0 : ℚ)) [440] 1) 22 2 = 1 ∧
      readField (fileBytes (fun _ => (0 : ℚ)) [440] 1) 24 4 = 44100 ∧
      readField (fileBytes (fun _ => (0 : ℚ)) [440] 1) 34 2 = 16 ∧
      readField (fileBytes (fun _ => (0 : ℚ)) [440] 1) 16 4 = 16 ∧
      readField (fileBytes (fun _ => (0 : ℚ)) [440] 1) 28 4 = 44100 * 1 * (16 / 8) ∧
      readField (fileBytes (fun _ => (0 : ℚ)) [440] 1) 32 2 = 1 * (16 / 8) ∧
      readField (fileBytes (fun _ => (0 : ℚ)) [440] 1) 40 4 =
        2 * (waveBuffer (fun _ => (0 : ℚ)) [440] 1).length % U32 ∧
      (2 * (waveBuffer (fun _ => (0 : ℚ)) [440] 1).length < U32 →
        readField (fileBytes (fun _ => (0 : ℚ)) [440] 1) 40 4 =
          2 * (waveBuffer (fun _ => (0 : ℚ)) [440] 1).length)) :=
  ⟨Nat.one_pos, by decide, by decide,
    c2_format_chunk_roundtrip (fun _ => 0) [440] 1 Nat.one_pos (by decide) (by decide)⟩

/-- Claim C3: for every valid request, the `chunkSize` field of the emitted
RIFF chunk (byte offset 4) equals
`sizeof(riffChunk) + sizeof(fmtChunk) + sizeof(dataChunkHeader) + dataByteSize - 8
 = 36 + dataByteSize` reduced modulo `2^32` (the field is 32 bits wide),
where `dataByteSize = wavesize` is the number of raw sample bytes of the
file (the file is 44 header bytes plus `wavesize` sample bytes); below the
wrap threshold the equality `chunkSize = 36 + dataByteSize` is exact. -/
theorem c3_riff_chunk_size (s : ℚ → ℚ) (freqs : List ℕ) (ft : ℕ) (hft : 0 < ft)
    (hne : freqs ≠ []) (hr : ∀ f ∈ freqs, MIN_FREQ ≤ f ∧ f ≤ MAX_FREQ) :
    readField (fileBytes s freqs ft) 4 4 =
      (sizeofRiffhead + sizeofFrmthead + sizeofDatahead + wavesize ft - 8) % U32 ∧
    readField (fileBytes s freqs ft) 4 4 = (36 + wavesize ft) % U32 ∧
    (fileBytes s freqs ft).length = 44 + wavesize ft ∧
    (36 + wavesize ft < U32 → readField (fileBytes s freqs ft) 4 4 = 36 + wavesize ft) := by
  have h1 : readField (fileBytes s freqs ft) 4 4 = readLE (bytesLE 4 (chunk0size ft)) := rfl
  have h2 : readField (fileBytes s freqs ft) 4 4 = chunk0size ft := by
    rw [h1, readLE_bytesLE, pow256_4]
    exact Nat.mod_eq_of_lt (chunk0size_lt ft)
  have h3 : chunk0size ft = (36 + wavesize ft) % U32 := by
    rw [chunk0size]
    congr 1
    simp only [sizeofRiffhead, sizeofFrmthead, sizeofDatahead]
    omega
  refine ⟨by rw [h2]; rfl, by rw [h2, h3], fileBytes_length s freqs ft, ?_⟩
  intro hlt
  rw [h2, h3, Nat.mod_eq_of_lt hlt]

/-- Claim C3, witness at the zero oracle, frequencies `[440]`, duration 1. -/
theorem c3_witness :
    0 < 1 ∧ ([440] : List ℕ) ≠ [] ∧
    (∀ f ∈ ([440] : List ℕ), MIN_FREQ ≤ f ∧ f ≤ MAX_FREQ) ∧
    (readField (fileBytes (fun _ => (0 : ℚ)) [440] 1) 4 4 =
        (sizeofRiffhead + sizeofFrmthead + sizeofDatahead + wavesize 1 - 8) % U32 ∧
      readField (fileBytes (fun _ => (0 : ℚ)) [440] 1) 4 4 = (36 + wavesize 1) % U32 ∧
      (fileBytes (fun _ => (0 : ℚ)) [440] 1).length = 44 + wavesize 1 ∧
      (36 + wavesize 1 < U32 →
        readField (fileBytes (fun _ => (0 : ℚ)) [440] 1) 4 4 = 36 + wavesize 1)) :=
  ⟨Nat.one_pos, by decide, by decide,
    c3_riff_chunk_size (fun _ => 0) [440] 1 Nat.one_pos (by decide) (by decide)⟩

/-! ### Claim C5 -/

lemma abs_trunc_le (q : ℚ) : |((trunc q : ℤ) : ℚ)| ≤ |q| := by
  rcases le_or_lt 0 q with hq | hq
  · rw [trunc, if_pos hq, abs_of_nonneg hq,
      abs_of_nonneg (by exact_mod_cast Int.floor_nonneg.mpr hq : (0 : ℚ) ≤ ((⌊q⌋ : ℤ) : ℚ))]
    exact_mod_cast Int.floor_le q
  · have hc : ⌈q⌉ ≤ (0 : ℤ) := Int.ceil_le.mpr (by exact_mod_cast hq.le)
    rw [trunc, if_neg (not_le.mpr hq), abs_of_nonpos hq.le,
      abs_of_nonpos (by exact_mod_cast hc : ((⌈q⌉ : ℤ) : ℚ) ≤ 0)]
    have := Int.le_ceil q
    linarith

lemma harmonicFold_abs_le (s : ℚ → ℚ) (hs : ∀ x, |s x| ≤ 1) (amp j : ℕ) :
    ∀ (l : List ℕ) (acc : ℤ),
      |((harmonicFold s amp j l acc : ℤ) : ℚ)| ≤ |(acc : ℚ)| + l.length * amp := by
  intro l
  induction l with
  | nil => intro acc; simp [harmonicFold]
  | cons f fs ih =>
    intro acc
    simp only [harmonicFold, List.foldl_cons] at ih ⊢
    have hstep : |((trunc ((acc : ℚ) + s ((f : ℚ) * j / waverate) * (amp : ℚ)) : ℤ) : ℚ)| ≤
        |(acc : ℚ)| + amp := by
      refine le_trans (abs_trunc_le _) (le_trans (abs_add _ _) ?_)
      have h1 : |s ((f : ℚ) * j / waverate) * (amp : ℚ)| ≤ (amp : ℚ) := by
        rw [abs_mul, abs_of_nonneg (by positivity : (0 : ℚ) ≤ (amp : ℚ))]
        exact mul_le_of_le_one_left (by positivity) (hs _)
      linarith
    have h3 := ih (trunc ((acc : ℚ) + s ((f : ℚ) * j / waverate) * (amp : ℚ)))
    have hlen : (((f :: fs).length : ℕ) : ℚ) = (fs.length : ℚ) + 1 := by
      push_cast [List.length_cons]
      ring
    rw [hlen]
    nlinarith [h3, hstep]

lemma waveBuffer_mem (s : ℚ → ℚ) (freqs : List ℕ) :
    ∀ ft v, v ∈ waveBuffer s freqs ft → ∃ j, v = sampleAt s freqs j := by
  intro ft
  induction ft with
  | zero => intro v hv; simp [waveBuffer] at hv
  | succ t ih =>
    intro v hv
    rw [waveBuffer] at hv
    rcases List.mem_append.mp hv with h | h
    · exact ih v h
    · rw [secondSamples] at h
      rcases List.mem_map.mp h with ⟨j, _, hj⟩
      exact ⟨j, hj.symm⟩

lemma length_mul_amp_le (m k : ℕ) (h : m ≤ k) :
    ((m : ℚ)) * ((32765 / k : ℕ) : ℚ) ≤ 32765 := by
  have h1 : m * (32765 / k) ≤ k * (32765 / k) := Nat.mul_le_mul_right _ h
  have h2 : k * (32765 / k) ≤ 32765 := by
    rw [mul_comm]
    exact Nat.div_mul_le_self 32765 k
  have h3 : m * (32765 / k) ≤ 32765 := le_trans h1 h2
  calc ((m : ℚ)) * ((32765 / k : ℕ) : ℚ) = ((m * (32765 / k) : ℕ) : ℚ) := by push_cast; ring
    _ ≤ 32765 := by exact_mod_cast h3

lemma sample_abs_le (s : ℚ → ℚ) (hs : ∀ x, |s x| ≤ 1) (freqs l : List ℕ)
    (hl : l.length ≤ freqs.length) (j : ℕ) :
    |((harmonicFold s (32765 / freqs.length) j l 0 : ℤ) : ℚ)| ≤ 32765 := by
  have h1 := harmonicFold_abs_le s hs (32765 / freqs.length) j l 0
  simp only [Int.cast_zero, abs_zero, zero_add] at h1
  exact le_trans h1 (length_mul_amp_le _ _ hl)

lemma int_in_range (v : ℤ) (h : |((v : ℤ) : ℚ)| ≤ 32765) : -32768 ≤ v ∧ v ≤ 32767 := by
  have h0 : ((|v| : ℤ) : ℚ) ≤ 32765 := by rwa [Int.cast_abs]
  have h1 : |v| ≤ 32765 := by exact_mod_cast h0
  rw [abs_le] at h1
  omega

/-- Claim C5: for every bounded sine oracle, every non-empty in-range
frequency list and every positive duration, every sample of the synthesized
buffer lies in `[-32768, 32767]`, and so does every intermediate accumulator
value of the harmonic loop (the value after any number `m` of harmonic
additions), so no float-to-`short` narrowing on line 147 ever overflows. -/
theorem c5_sample_range (s : ℚ → ℚ) (hs : ∀ x, |s x| ≤ 1) (freqs : List ℕ)
    (hne : freqs ≠ []) (hr : ∀ f ∈ freqs, MIN_FREQ ≤ f ∧ f ≤ MAX_FREQ)
    (ft : ℕ) (hft : 0 < ft) :
    (∀ v ∈ waveBuffer s freqs ft, -32768 ≤ v ∧ v ≤ 32767) ∧
    (∀ j m, -32768 ≤ accAfter s freqs j m ∧ accAfter s freqs j m ≤ 32767) := by
  constructor
  · intro v hv
    obtain ⟨j, rfl⟩ := waveBuffer_mem s freqs ft v hv
    exact int_in_range _ (sample_abs_le s hs freqs freqs (le_refl _) j)
  · intro j m
    refine int_in_range _ (sample_abs_le s hs freqs (freqs.take m) ?_ j)
    rw [List.length_take]
    exact min_le_right _ _

/-- Claim C5, witness at the zero oracle, frequencies `[440]`, duration 1. -/
theorem c5_witness :
    (∀ x : ℚ, |(0 : ℚ)| ≤ 1) ∧ ([440] : List ℕ) ≠ [] ∧
    (∀ f ∈ ([440] : List ℕ), MIN_FREQ ≤ f ∧ f ≤ MAX_FREQ) ∧ 0 < 1 ∧
    ((∀ v ∈ waveBuffer (fun _ => (0 : ℚ)) [440] 1, -32768 ≤ v ∧ v ≤ 32767) ∧
      (∀ j m, -32768 ≤ accAfter (fun _ => (0 : ℚ)) [440] j m ∧
        accAfter (fun _ => (0 : ℚ)) [440] j m ≤ 32767)) :=
  ⟨fun _ => by simp, by decide, by decide, Nat.one_pos,
    c5_sample_range (fun _ => 0) (fun _ => by simp) [440] (by decide) (by decide) 1
      Nat.one_pos⟩

/-! ### Claim C10 -/

lemma validateFreqsFrom_spec :
    ∀ (l : List ℕ) (i0 k : ℕ), validateFreqsFrom l i0 = some k →
      i0 ≤ k ∧ (∃ f, l[k - i0]? = some f ∧ freqRejected f = true) ∧
        ∀ j, j < k - i0 → ∀ f, l[j]? = some f → freqRejected f = false := by
  intro l
  induction l with
  | nil => intro i0 k h; simp [validateFreqsFrom] at h
  | cons f fs ih =>
    intro i0 k h
    by_cases hf : freqRejected f = true
    · rw [validateFreqsFrom, if_pos hf] at h
      have hk : i0 = k := Option.some.inj h
      subst hk
      refine ⟨le_refl _, ⟨f, by simp, hf⟩, ?_⟩
      intro j hj
      omega
    · have hf' : freqRejected f = false := by
        simpa using hf
      rw [validateFreqsFrom, if_neg (by simp [hf'])] at h
      obtain ⟨h1, ⟨g, hg1, hg2⟩, h3⟩ := ih (i0 + 1) k h
      have e : k - i0 = (k - (i0 + 1)) + 1 := by omega
      refine ⟨by omega, ⟨g, ?_, hg2⟩, ?_⟩
      · rw [e]
        simpa using hg1
      · intro j hj g' hg'
        match j with
        | 0 =>
          have : f = g' := by simpa using hg'
          rw [← this]
          exact hf'
        | j' + 1 =>
          refine h3 j' (by omega) g' ?_
          simpa using hg'

/-- Claim C10, counterexample: the claim "for every input with an
out-of-range frequency, the value displayed by the rejection message is not
the rejected frequency" is false: for the argument vector
`wavdump out 1 19 440 19` the first rejected frequency is 19 at position 0,
and the displayed argument `argv[5]` is the string `19` — exactly the
rejected value. -/
theorem c10_counterexample :
    ¬ (∀ (argv : List (List Char)) (i : ℕ),
        durationRejected (toUInt32 (atolZ (argv.getD 2 []))) = false →
        validateFreqsFrom (parseFreqs argv) 0 = some i →
          argv[5 + i]? ≠ argv[3 + i]?) := by
  intro h
  exact h [['w'], ['o'], ['1'], ['1', '9'], ['4', '4', '0'], ['1', '9']] 0
    (by decide) (by decide) (by decide)

/-- Claim C10, amended: when the first out-of-range frequency sits at position
`i` of the frequency list, the rejection message displays the command-line
argument at index `5 + i` rather than the offending argument at index `3 + i`
(a different position, though its text may coincide with the offending one),
and the read may fall outside the argument vector, as for
`wavdump out 1 19`, where the displayed argument is `argv[5]` of a four-entry
vector. -/
theorem c10_amended (argv : List (List Char)) (i : ℕ)
    (hd : durationRejected (toUInt32 (atolZ (argv.getD 2 []))) = false)
    (h : validateFreqsFrom (parseFreqs argv) 0 = some i) :
    (∃ f, (parseFreqs argv)[i]? = some f ∧ freqRejected f = true) ∧
    (∀ j, j < i → ∀ f, (parseFreqs argv)[j]? = some f → freqRejected f = false) ∧
    rejectionDisplay argv = some (argv[5 + i]?) ∧ 3 + i ≠ 5 + i ∧
    rejectionDisplay [['w'], ['o'], ['1'], ['1', '9']] = some none := by
  obtain ⟨h1, h2, h3⟩ := validateFreqsFrom_spec (parseFreqs argv) 0 i h
  simp only [Nat.sub_zero] at h2 h3
  refine ⟨h2, h3, ?_, by omega, by decide⟩
  rw [rejectionDisplay, h]
  rfl

/-- Claim C10, witness for the amended theorem at the argument vector
`wavdump out 1 19 440 19`. -/
theorem c10_amended_witness :
    durationRejected
        (toUInt32 (atolZ (([['w'], ['o'], ['1'], ['1', '9'], ['4', '4', '0'], ['1', '9']] :
          List (List Char)).getD 2 []))) = false ∧
    validateFreqsFrom
        (parseFreqs [['w'], ['o'], ['1'], ['1', '9'], ['4', '4', '0'], ['1', '9']]) 0 =
      some 0 ∧
    ((∃ f,
        (parseFreqs [['w'], ['o'], ['1'], ['1', '9'], ['4', '4', '0'], ['1', '9']])[0]? =
          some f ∧ freqRejected f = true) ∧
      (∀ j, j < 0 → ∀ f,
        (parseFreqs [['w'], ['o'], ['1'], ['1', '9'], ['4', '4', '0'], ['1', '9']])[j]? =
          some f → freqRejected f = false) ∧
      rejectionDisplay [['w'], ['o'], ['1'], ['1', '9'], ['4', '4', '0'], ['1', '9']] =
        some ([['w'], ['o'], ['1'], ['1', '9'], ['4', '4', '0'], ['1', '9']] :
          List (List Char))[5 + 0]? ∧
      3 + 0 ≠ 5 + 0 ∧
      rejectionDisplay [['w'], ['o'], ['1'], ['1', '9']] = some none) :=
  ⟨by decide, by decide,
    c10_amended [['w'], ['o'], ['1'], ['1', '9'], ['4', '4', '0'], ['1', '9']] 0 (by decide)
      (by decide)⟩

end Wavdump
